import Mathlib

/-- A BSON-like value stored in a MongoDB document. Modelled from the spec:
the document-database boundary (spec section 6) stores documents whose fields
hold strings, integers, or nested sub-documents. -/
inductive Value : Type where
  | vStr (s : String)
  | vInt (n : Int)
  | vDoc (fields : List (String × Value))
  deriving Repr

/-- A MongoDB document: an association list of field names to values. -/
abbrev Doc : Type := List (String × Value)

mutual

/-- Decidable equality for values. -/
def Value.decEq : (a b : Value) → Decidable (a = b)
  | .vStr a, .vStr b =>
      if h : a = b then .isTrue (by rw [h]) else .isFalse (fun hc => by cases hc; exact h rfl)
  | .vInt a, .vInt b =>
      if h : a = b then .isTrue (by rw [h]) else .isFalse (fun hc => by cases hc; exact h rfl)
  | .vDoc d, .vDoc e =>
      match Value.fieldsDecEq d e with
      | .isTrue h => .isTrue (by rw [h])
      | .isFalse h => .isFalse (fun hc => by cases hc; exact h rfl)
  | .vStr _, .vInt _ => .isFalse nofun
  | .vStr _, .vDoc _ => .isFalse nofun
  | .vInt _, .vStr _ => .isFalse nofun
  | .vInt _, .vDoc _ => .isFalse nofun
  | .vDoc _, .vStr _ => .isFalse nofun
  | .vDoc _, .vInt _ => .isFalse nofun

/-- Decidable equality for field lists of a document. -/
def Value.fieldsDecEq : (d e : List (String × Value)) → Decidable (d = e)
  | [], [] => .isTrue rfl
  | [], _ :: _ => .isFalse nofun
  | _ :: _, [] => .isFalse nofun
  | (k, v) :: r, (k', v') :: r' =>
      if hk : k = k' then
        match Value.decEq v v', Value.fieldsDecEq r r' with
        | .isTrue hv, .isTrue hr => .isTrue (by rw [hk, hv, hr])
        | .isFalse hv, _ =>
            .isFalse (fun hc => by injection hc with h1 h2; injection h1 with hka hva; exact hv hva)
        | _, .isFalse hr =>
            .isFalse (fun hc => by injection hc with h1 h2; exact hr h2)
      else
        .isFalse (fun hc => by injection hc with h1 h2; injection h1 with hka hva; exact hk hka)

end

instance : DecidableEq Value := Value.decEq

/-- Python dict assignment `d[k] = v` on an association list: replace the
first occurrence in place, or append. -/
def setAssoc {β : Type} : List (String × β) → String → β → List (String × β)
  | [], k, v => [(k, v)]
  | (k', v') :: rest, k, v =>
      if k' = k then (k, v) :: rest else (k', v') :: setAssoc rest k v

/-- First-occurrence lookup in an association list (Python dict lookup). -/
def lookupAssoc {β : Type} : List (String × β) → String → Option β
  | [], _ => none
  | (k', v) :: rest, k => if k' = k then some v else lookupAssoc rest k

/-- First-occurrence lookup of a field in a document. -/
def lookupField (d : Doc) (k : String) : Option Value :=
  lookupAssoc d k

/-- Set a field in a document: replace the first occurrence of the key in
place, or append the binding at the end. -/
def setField (d : Doc) (k : String) (v : Value) : Doc :=
  setAssoc d k v

/-- Remove a field from a document (Python `del d[k]` / MongoDB `$unset`);
documents built by `setField` bind each key once, so filtering is exact. -/
def removeField (d : Doc) (k : String) : Doc :=
  d.filter (fun kv => kv.1 ≠ k)

/-- Split a character list at every occurrence of the separator `c`
(the semantics of Python `str.split` with an explicit separator). -/
def splitChar (c : Char) : List Char → List (List Char)
  | [] => [[]]
  | x :: xs =>
      if x = c then [] :: splitChar c xs
      else
        match splitChar c xs with
        | [] => [[x]]
        | h :: t => (x :: h) :: t

/-- Split a dotted MongoDB field path into its components,
e.g. `"a.b"` into `["a", "b"]` (Python `key.split(".")`). -/
def splitKey (s : String) : List String :=
  (splitChar '.' s.data).map (fun l => String.mk l)

/-- Write a value at a (pre-split) dotted path inside a document. Modelled
from the spec: dotted field names in updates are honored as nested-path
writes by the underlying store (spec section 6); intermediate sub-documents
are merged into, never wholesale-replaced. -/
def docSetPath : List String → Value → Doc → Doc
  | [], _, d => d
  | [k], v, d => setField d k v
  | k :: k2 :: rest, v, d =>
      match lookupField d k with
      | some (Value.vDoc sub) =>
          setField d k (Value.vDoc (docSetPath (k2 :: rest) v sub))
      | _ => setField d k (Value.vDoc (docSetPath (k2 :: rest) v []))

/-- A condition a selector imposes on one field: plain equality, the
MongoDB operator `$exists: 1`, or `$in: [...]`. -/
inductive Cond : Type where
  | ceq (v : Value)
  | cexists
  | cin (vs : List Value)
  deriving DecidableEq, Repr

/-- A MongoDB query selector: a conjunction of per-field conditions. -/
abbrev Selector : Type := List (String × Cond)

/-- Does the value found at a field (if any) satisfy a condition? -/
def condHolds : Cond → Option Value → Bool
  | .ceq v, some w => v = w
  | .ceq _, none => false
  | .cexists, o => o.isSome
  | .cin vs, some w => vs.contains w
  | .cin _, none => false

/-- Does a document match a selector (all conditions hold)? Modelled from
the spec: the store's `find(selector) -> cursor` boundary (spec section 6),
a key/value equality conjunction. -/
def docMatches (sel : Selector) (d : Doc) : Bool :=
  sel.all (fun kc => condHolds kc.2 (lookupField d kc.1))

/-- A collection: the list of stored documents. -/
abbrev Collection : Type := List Doc

/-- `find`: all documents of the collection matching the selector. -/
def findDocs (sel : Selector) (coll : Collection) : Collection :=
  coll.filter (fun d => docMatches sel d)

/-- `find_one`: the first document matching the selector, if any. -/
def findOneDoc (sel : Selector) (coll : Collection) : Option Doc :=
  (findDocs sel coll).head?

/-- MongoDB `update` with `multi=False`: apply the modifier to the first
matching document only. Modelled from the spec: the store's
`update(selector, modifier, multi) -> ack` boundary (spec section 6). -/
def updateFirst (sel : Selector) (f : Doc → Doc) : Collection → Collection
  | [] => []
  | d :: ds => if docMatches sel d then f d :: ds else d :: updateFirst sel f ds

/-- MongoDB `update` with `multi=True`: apply the modifier to every
matching document. -/
def updateAll (sel : Selector) (f : Doc → Doc) (coll : Collection) : Collection :=
  coll.map (fun d => if docMatches sel d then f d else d)

/-- The `$set` modifier for one (possibly dotted) field. -/
def modSet (field : String) (v : Value) (d : Doc) : Doc :=
  docSetPath (splitKey field) v d

/-- The `$rename` modifier: drop the old field and bind its value under the
new name; a no-op on documents lacking the old field. -/
def modRename (oldKey newKey : String) (d : Doc) : Doc :=
  match lookupField d oldKey with
  | none => d
  | some v => setField (removeField d oldKey) newKey v

/-- The `$unset` modifier: drop the field. -/
def modUnset (key : String) (d : Doc) : Doc :=
  removeField d key

/-- The keys a selector (or a query mask) mentions. -/
def selKeys (sel : Selector) : List String :=
  sel.map Prod.fst

/-- One step of `ImageLog._insert_query_mask`'s loop over the mask: skip a
mask key the selector already mentions, otherwise add the mask entry. -/
def insertMaskStep (sel : Selector) (kc : String × Cond) : Selector :=
  if kc.1 ∈ selKeys sel then sel else sel ++ [kc]

/-- `ImageLog._insert_query_mask`: enforce the query mask on a selector;
the caller can still override the mask (mask entries whose key the caller
already gave are skipped). -/
def insertQueryMask (mask sel : Selector) : Selector :=
  mask.foldl insertMaskStep sel

/-- Python dict update `sel[k] = c`: replace in place or append. -/
def setSelField (sel : Selector) (k : String) (c : Cond) : Selector :=
  setAssoc sel k c

/-- `ImageLog.find` (without the deprecated keyword plumbing): merge the
query mask into the caller's selector, optionally restrict `_id` to the
`images` list, and filter the collection. -/
def imageLogFind (mask : Selector) (sel : Selector) (images : Option (List Value))
    (coll : Collection) : Collection :=
  let sel := insertQueryMask mask sel
  let sel := match images with
    | none => sel
    | some imgs => setSelField sel "_id" (Cond.cin imgs)
  findDocs sel coll

/-- The `{"_id": imageKey}` selector `ImageLog.set` updates with. -/
def idSelector (imageKey : String) : Selector :=
  [("_id", Cond.ceq (Value.vStr imageKey))]

/-- `ImageLog.set`: update the image record whose `_id` is `imageKey`,
setting `key` to `value`; with an extension, the field written is the
dotted path `ext.key`. The query mask plays no part here. -/
def imageLogSet (coll : Collection) (imageKey key : String) (value : Value)
    (ext : Option String) : Collection :=
  match ext with
  | none => updateFirst (idSelector imageKey) (modSet key value) coll
  | some e => updateFirst (idSelector imageKey) (modSet (e ++ "." ++ key) value) coll

/-- `ImageLog.rename_field`: merge the query mask into the optional
selector, require the old field to exist, and `$rename` it on every
matching record (`multi=True` by default). -/
def imageLogRenameField (mask : Selector) (sel : Option Selector)
    (dataKeyOld dataKeyNew : String) (multi : Bool) (coll : Collection) : Collection :=
  let sel := insertQueryMask mask (sel.getD [])
  let sel := setSelField sel dataKeyOld Cond.cexists
  if multi then updateAll sel (modRename dataKeyOld dataKeyNew) coll
  else updateFirst sel (modRename dataKeyOld dataKeyNew) coll

/-- `ImageLog.delete_field`: merge the query mask into the optional
selector and `$unset` the field on every matching record
(`multi=True` by default). -/
def imageLogDeleteField (mask : Selector) (sel : Option Selector)
    (dataKey : String) (multi : Bool) (coll : Collection) : Collection :=
  let sel := insertQueryMask mask (sel.getD [])
  if multi then updateAll sel (modUnset dataKey) coll
  else updateFirst sel (modUnset dataKey) coll

/-- `reach` on a pre-split dotted path: walk into nested sub-documents;
a missing or non-document intermediate is a not-found. -/
def reachParts : Doc → List String → Option Value
  | _, [] => none
  | d, [k] => lookupField d k
  | d, k :: k2 :: rest =>
      match lookupField d k with
      | some (Value.vDoc sub) => reachParts sub (k2 :: rest)
      | _ => none

/-- `dbtools.reach`: return a value from an embedded document, with MongoDB
dot notation resolving through nested sub-documents. -/
def reach (doc : Doc) (key : String) : Option Value :=
  reachParts doc (splitKey key)

/-- A Python value held in an Astromatic `configs` dictionary; rendering
stringifies it with `"%s"`, which is total for every value type. -/
inductive PVal : Type where
  | pstr (s : String)
  | pint (n : Int)
  | pnone
  | pbool (b : Bool)
  deriving DecidableEq, Repr

/-- Python `"%s"` stringification of a config value. -/
def pvalStr : PVal → String
  | .pstr s => s
  | .pint n => toString n
  | .pnone => "None"
  | .pbool true => "True"
  | .pbool false => "False"

/-- The `Astromatic.configs` state: `None` until initialized, then a dict. -/
abbrev Configs : Type := Option (List (String × PVal))

/-- `Astromatic.add_to_configs`: add a key with a value to the configs
dictionary, initializing the dictionary if necessary. -/
def addToConfigs (cfg : Configs) (key : String) (value : PVal) : Configs :=
  match cfg with
  | none => some [(key, value)]
  | some d => some (setAssoc d key value)

/-- The default null sentinel of `set_null_config`: the two-character
Python string `""`. -/
def emptyStringSentinel : PVal := PVal.pstr "\"\""

/-- `Astromatic.set_null_config`: set the key to the null sentinel, or,
when null is `None` (the absent marker), delete the key altogether. -/
def setNullConfig (cfg : Configs) (key : String) (null : Option PVal) : Configs :=
  match cfg with
  | none =>
      match null with
      | some nv => some [(key, nv)]
      | none => some []
  | some d =>
      match null with
      | some nv => some (setAssoc d key nv)
      | none =>
          if key ∈ d.map Prod.fst then some (d.filter (fun kv => kv.1 ≠ key))
          else some d

/-- The command-line fragment one configs entry contributes:
`" -%s %s" % (key, value)`. -/
def configFragment (kv : String × PVal) : String :=
  " -" ++ kv.1 ++ " " ++ pvalStr kv.2

/-- `Astromatic.make_config_command`: join the command-line configuration
arguments into one string; `None` when the configs were never set. -/
def makeConfigCommand (cfg : Configs) : Option String :=
  match cfg with
  | some d => some (d.foldl (fun acc kv => acc ++ configFragment kv) "")
  | none => none

/-- The concatenation of the command-line fragments of every configs
entry, in dictionary order; `makeConfigCommand` is proved to produce it. -/
def configConcat (d : List (String × PVal)) : String :=
  (d.map configFragment).foldr (fun a b => a ++ b) ""

/-- Python `sep.join(strings)`. -/
def pyJoin (sep : String) : List String → String
  | [] => ""
  | [x] => x
  | x :: xs => x ++ sep ++ pyJoin sep xs

/-- Does the string start with the given character list? -/
def strStartsWith (s : String) (pre : List Char) : Bool :=
  pre.isPrefixOf s.data

/-- Does the string end with the given character list? -/
def strEndsWith (s : String) (post : List Char) : Bool :=
  post.reverse.isPrefixOf s.data.reverse

/-- POSIX `os.path.join` restricted to two components, as the code uses it. -/
def pathJoin (a b : String) : String :=
  if strStartsWith b ['/'] then b
  else if a = "" ∨ strEndsWith a ['/'] then a ++ b
  else a ++ "/" ++ b

/-- A file system: paths mapped to file contents. Modelled from the spec:
the input-file list is a plain text file at a path in the working
directory, replacing any prior file (spec sections 4.1 and 6). -/
abbrev FileSys : Type := List (String × String)

/-- `os.remove`: drop the entry at the path. -/
def fsRemove (fs : FileSys) (p : String) : FileSys :=
  fs.filter (fun e => e.1 ≠ p)

/-- `open(p, "w")` followed by `write`: create or truncate, then write. -/
def fsWrite (fs : FileSys) (p content : String) : FileSys :=
  setAssoc fs p content

/-- The content `Astromatic.write_input_file_list` writes: one file path
per line, with a newline appended at end of file. -/
def writeInputFileListContent (paths : List String) : String :=
  pyJoin "\n" paths ++ "\n"

/-- The path of the input list file: `workDir/<name>.txt`. -/
def inputListPath (workDir name : String) : String :=
  pathJoin workDir (pyJoin "." [name, "txt"])

/-- `Astromatic.write_input_file_list`: remove any existing list file, then
write the path list; returns the new file system and the list path. -/
def writeInputFileList (fs : FileSys) (workDir name : String)
    (paths : List String) : FileSys × String :=
  let listPath := inputListPath workDir name
  let fs := if (lookupAssoc fs listPath).isSome then fsRemove fs listPath else fs
  (fsWrite fs listPath (writeInputFileListContent paths), listPath)

/-- The command `Astromatic.run` executes: with a `(user@host, rootPath)`
virtual host the command is wrapped in an `ssh` call, otherwise it runs
unmodified. -/
def wrapVirtualHost (virtualHost : Option (String × String)) (command : String) : String :=
  match virtualHost with
  | none => command
  | some hr => pyJoin " " ["ssh", hr.1, "'cd " ++ hr.2 ++ ";" ++ command ++ "'"]

/-- The remote wrapping as the spec words it, for comparison with the
code's `wrapVirtualHost`. Modelled from the spec: the command is rewritten
to `ssh <principal> 'cd <remote_root>; <command>'` (spec section 4.1). -/
def specRemoteWrap (principal remoteRoot command : String) : String :=
  "ssh " ++ principal ++ " 'cd " ++ remoteRoot ++ "; " ++ command ++ "'"

/-- Index of the first occurrence of a character, if any. -/
def firstIdxChar (c : Char) : List Char → Option Nat
  | [] => none
  | x :: xs => if x = c then some 0 else (firstIdxChar c xs).map (· + 1)

/-- `os.path.basename` on the character list: the part after the last
slash. -/
def baseNameData (l : List Char) : List Char :=
  l.foldl (fun acc c => if c = '/' then [] else acc ++ [c]) []

/-- The root of `os.path.splitext` on a basename: drop the part from the
last dot on, unless every preceding character is a dot. -/
def splitextRootData (l : List Char) : List Char :=
  match firstIdxChar '.' l.reverse with
  | none => l
  | some ridx =>
      let didx := l.length - 1 - ridx
      if (l.take didx).any (fun c => c ≠ '.') then l.take didx else l

/-- `os.path.splitext(os.path.basename(p))[0]`, the base name Source
Extractor derives check-image names from. -/
def seBaseName (p : String) : String :=
  String.mk (splitextRootData (baseNameData p.data))

/-- The `SourceExtractor.set_check_images` lookup table mapping a check
type to its filename suffix; an unlisted type is a `KeyError`. -/
def seCheckExt : String → Option String
  | "SEGMENTATION" => some "seg"
  | "OBJECTS" => some "obj"
  | "MINIBACK_RMS" => some "minibrms"
  | "BACKGROUND" => some "bkg"
  | "MINIBACKGROUND" => some "minibkg"
  | "BACKGROUND_RMS" => some "backrms"
  | "-OBJECTS" => some "objsub"
  | _ => none

/-- `SourceExtractor.set_check_images`: derive the check-image paths
`workDir/<baseName>_<suffix>.fits`; a check type missing from the lookup
table raises a `KeyError`, aborting the whole configuration. -/
def seSetCheckImages (workDir inputPath : String) : List String → Option (List String)
  | [] => some []
  | t :: ts =>
      match seCheckExt t with
      | none => none
      | some suffix =>
          (seSetCheckImages workDir inputPath ts).map
            (fun ps => pathJoin workDir (seBaseName inputPath ++ "_" ++ suffix ++ ".fits") :: ps)

/-- The `PSFex.set_check_images` lookup table mapping a check type to its
filename suffix; an unlisted type is a `KeyError`. -/
def psfexCheckSuffix : String → Option String
  | "CHI" => some "chi"
  | "PROTOTYPES" => some "proto"
  | "SAMPLES" => some "samp"
  | "RESIDUALS" => some "resi"
  | "SNAPSHOTS" => some "snap"
  | "MOFFAT" => some "moffat"
  | "-MOFFAT" => some "-moffat"
  | "-SYMMETRICAL" => some "-symm"
  | "BASIS" => some "basis"
  | _ => none

/-- `PSFex.set_check_images`: derive the check-image paths
`checkDir/<prefix>_<suffix>.fits`; a check type missing from the lookup
table raises a `KeyError`. -/
def psfexSetCheckImages (checkDir pfx : String) : List String → Option (List String)
  | [] => some []
  | t :: ts =>
      match psfexCheckSuffix t with
      | none => none
      | some suffix =>
          (psfexSetCheckImages checkDir pfx ts).map
            (fun ps => pathJoin checkDir (pfx ++ "_" ++ suffix ++ ".fits") :: ps)

/-- `Scamp.set_check_plots`: the check-plot file names are the lower-cased
check types, placed in the working directory. -/
def scampSetCheckPlots (workDir : String) (checks : List String) : List String :=
  checks.map (fun t => pathJoin workDir t.toLower)

/-- `Scamp.make_command` (with `useFileRefs=False`, its default and only
working mode): add the defaults file under `c`, reference the input list as
`@<listPath>`, append the check-plot configuration, then append the
rendered configs. -/
def scampMakeCommand (configs : Configs) (defaultsPath : String)
    (checkList : Option (List String)) (workDir listPath : String) : String :=
  let c1 := addToConfigs configs "c" (PVal.pstr defaultsPath)
  let c2 := match checkList with
    | some cl =>
        addToConfigs
          (addToConfigs c1 "CHECKPLOT_TYPE" (PVal.pstr (pyJoin "," cl)))
          "CHECKPLOT_NAME" (PVal.pstr (pyJoin "," (scampSetCheckPlots workDir cl)))
    | none => addToConfigs c1 "CHECKPLOT_TYPE" (PVal.pstr "NONE")
  let command := "scamp @" ++ listPath
  match makeConfigCommand c2 with
  | some configCmd => pyJoin " " [command, configCmd]
  | none => command

/-- Python `list.index` as used by `check_path`: the index of the first
occurrence, or a `ValueError` (here `none`). -/
def pyListIndex (x : String) : List String → Option Nat
  | [] => none
  | y :: ys => if y = x then some 0 else (pyListIndex x ys).map (fun i => i + 1)

/-- The shared body of `SourceExtractor.check_path` and `PSFex.check_path`:
look the check type up in the configured list; `list.index` raises
`ValueError` when the type is absent, so the `i >= 0` guard always holds
and the `None` branch is unreachable. -/
def astromaticCheckPath (checkList checkPaths : List String)
    (checkType : String) : Except String (Option String) :=
  match pyListIndex checkType checkList with
  | none => Except.error "ValueError"
  | some i =>
      if (i : Int) ≥ 0 then
        match checkPaths[i]? with
        | some p => Except.ok (some p)
        | none => Except.error "IndexError"
      else Except.ok none

/-- `_workSE`'s catalog name: `"_".join((imageKey, catPostfix))`. -/
def workSECatalogName (imageKey catPostfix : String) : String :=
  pyJoin "_" [imageKey, catPostfix]

/-- `SourceExtractor.__init__`'s catalog path:
`os.path.join(workDir, catalogName + ".fits")`. -/
def seCatalogPath (workDir catalogName : String) : String :=
  pathJoin workDir (catalogName ++ ".fits")

/-- The catalog path a batch source-extraction unit computes for one image
key (through `_workSE` and `SourceExtractor.__init__`). -/
def workSECatalogPath (workDir imageKey catPostfix : String) : String :=
  seCatalogPath workDir (workSECatalogName imageKey catPostfix)

/-- The per-key results `BatchSourceExtractor.run` collects from the pool:
each image key paired with its unit's catalog path. -/
def batchSEResults (workDir catPostfix : String) (imageKeys : List String) :
    List (String × String) :=
  imageKeys.map (fun k => (k, workSECatalogPath workDir k catPostfix))

/-- The persistence loop of `BatchSourceExtractor.run`: write each unit's
catalog path into the image log under the catalog key. -/
def batchPersistCatalogs (catalogKey : String) (results : List (String × String))
    (coll : Collection) : Collection :=
  results.foldl (fun c kp => imageLogSet c kp.1 catalogKey (Value.vStr kp.2) none) coll


theorem lookupAssoc_setAssoc_self {β : Type} (d : List (String × β)) (k : String) (v : β) :
    lookupAssoc (setAssoc d k v) k = some v := by
  induction d with
  | nil => simp [setAssoc, lookupAssoc]
  | cons kv rest ih =>
      obtain ⟨k', v'⟩ := kv
      by_cases h : k' = k
      · simp [setAssoc, lookupAssoc, h]
      · simp [setAssoc, lookupAssoc, h, ih]

theorem lookupAssoc_setAssoc_ne {β : Type} (d : List (String × β)) (k k' : String) (v : β)
    (h : k' ≠ k) : lookupAssoc (setAssoc d k v) k' = lookupAssoc d k' := by
  have hk : ¬ k = k' := fun hc => h (Eq.symm hc)
  induction d with
  | nil => simp [setAssoc, lookupAssoc, hk]
  | cons kv rest ih =>
      obtain ⟨k0, v0⟩ := kv
      by_cases h0 : k0 = k
      · subst h0
        simp [setAssoc, lookupAssoc, hk]
      · simp [setAssoc, lookupAssoc, h0, ih]

theorem lookupAssoc_append {β : Type} (l1 l2 : List (String × β)) (k : String) :
    lookupAssoc (l1 ++ l2) k =
      (lookupAssoc l1 k).rec (lookupAssoc l2 k) (fun v => some v) := by
  induction l1 with
  | nil => simp [lookupAssoc]
  | cons kv rest ih =>
      by_cases h : kv.1 = k
      · simp [lookupAssoc, h]
      · simpa [lookupAssoc, h] using ih

theorem lookupAssoc_eq_none_of_not_mem {β : Type} (l : List (String × β)) (k : String)
    (h : k ∉ l.map Prod.fst) : lookupAssoc l k = none := by
  induction l with
  | nil => simp [lookupAssoc]
  | cons kv rest ih =>
      simp only [List.map_cons, List.mem_cons] at h
      push_neg at h
      have hne : ¬ kv.1 = k := fun hc => h.1 (Eq.symm hc)
      simp [lookupAssoc, hne, ih h.2]

theorem mem_of_lookupAssoc_eq_some {β : Type} (l : List (String × β)) (k : String) (v : β)
    (h : lookupAssoc l k = some v) : (k, v) ∈ l := by
  induction l with
  | nil => simp [lookupAssoc] at h
  | cons kv rest ih =>
      obtain ⟨k0, v0⟩ := kv
      by_cases h0 : k0 = k
      · rw [show lookupAssoc ((k0, v0) :: rest) k = some v0 by simp [lookupAssoc, h0]] at h
        have hv : v0 = v := Option.some.inj h
        subst h0
        subst hv
        exact List.mem_cons_self _ _
      · rw [show lookupAssoc ((k0, v0) :: rest) k = lookupAssoc rest k by
            simp [lookupAssoc, h0]] at h
        exact List.mem_cons_of_mem _ (ih h)

theorem mem_setAssoc_self {β : Type} (d : List (String × β)) (k : String) (v : β) :
    (k, v) ∈ setAssoc d k v := by
  induction d with
  | nil => simp [setAssoc]
  | cons kv rest ih =>
      by_cases h : kv.1 = k
      · simp [setAssoc, h]
      · simp only [setAssoc, h, if_neg, not_false_iff]
        exact List.mem_cons_of_mem _ ih

theorem mem_setAssoc_of_mem_ne {β : Type} (d : List (String × β)) (k k' : String)
    (v v' : β) (hmem : (k', v') ∈ d) (hne : k' ≠ k) : (k', v') ∈ setAssoc d k v := by
  induction d with
  | nil => simp at hmem
  | cons kv rest ih =>
      rcases List.mem_cons.mp hmem with h | h
      · subst h
        simp only [setAssoc]
        by_cases h0 : k' = k
        · exact absurd h0 hne
        · simp [h0]
      · by_cases h0 : kv.1 = k
        · simp only [setAssoc, h0, if_pos]
          exact List.mem_cons_of_mem _ h
        · simp only [setAssoc, h0, if_neg, not_false_iff]
          exact List.mem_cons_of_mem _ (ih h)

theorem lookupAssoc_filter_ne {β : Type} (l : List (String × β)) (k k' : String)
    (h : k' ≠ k) : lookupAssoc (l.filter (fun e => e.1 ≠ k)) k' = lookupAssoc l k' := by
  induction l with
  | nil => rfl
  | cons kv rest ih =>
      obtain ⟨k0, v0⟩ := kv
      by_cases h0 : k0 = k
      · have hne : ¬ k0 = k' := fun hc => h (Eq.trans (Eq.symm hc) h0)
        rw [show List.filter (fun e => decide (e.1 ≠ k)) ((k0, v0) :: rest) =
              List.filter (fun e => decide (e.1 ≠ k)) rest by simp [List.filter_cons, h0]]
        rw [ih]
        simp [lookupAssoc, hne]
      · rw [show List.filter (fun e => decide (e.1 ≠ k)) ((k0, v0) :: rest) =
              (k0, v0) :: List.filter (fun e => decide (e.1 ≠ k)) rest by
            simp [List.filter_cons, h0]]
        by_cases h1 : k0 = k'
        · simp only [lookupAssoc, if_pos h1]
        · simp only [lookupAssoc, if_neg h1]
          exact ih

theorem lookupAssoc_filter_self {β : Type} (l : List (String × β)) (k : String) :
    lookupAssoc (l.filter (fun e => e.1 ≠ k)) k = none := by
  apply lookupAssoc_eq_none_of_not_mem
  intro hc
  rcases List.mem_map.mp hc with ⟨e, he, hk⟩
  have := List.of_mem_filter he
  simp [hk] at this

theorem lookupAssoc_append_some {β : Type} (l1 l2 : List (String × β)) (k : String) (v : β)
    (h : lookupAssoc l1 k = some v) : lookupAssoc (l1 ++ l2) k = some v := by
  induction l1 with
  | nil => simp [lookupAssoc] at h
  | cons kv rest ih =>
      by_cases h0 : kv.1 = k
      · simpa [lookupAssoc, h0] using h
      · simp only [lookupAssoc, if_neg h0] at h
        simpa [lookupAssoc, h0] using ih h

theorem lookupAssoc_append_none {β : Type} (l1 l2 : List (String × β)) (k : String)
    (h : lookupAssoc l1 k = none) : lookupAssoc (l1 ++ l2) k = lookupAssoc l2 k := by
  induction l1 with
  | nil => rfl
  | cons kv rest ih =>
      by_cases h0 : kv.1 = k
      · simp [lookupAssoc, h0] at h
      · simp only [lookupAssoc, if_neg h0] at h
        simpa [lookupAssoc, h0] using ih h

theorem lookupAssoc_isSome_of_mem_keys {β : Type} (l : List (String × β)) (k : String)
    (h : k ∈ l.map Prod.fst) : ∃ v, lookupAssoc l k = some v := by
  induction l with
  | nil => simp at h
  | cons kv rest ih =>
      by_cases h0 : kv.1 = k
      · exact ⟨kv.2, by simp [lookupAssoc, h0]⟩
      · simp only [List.map_cons, List.mem_cons] at h
        rcases h with h | h
        · exact absurd h.symm h0
        · rcases ih h with ⟨v, hv⟩
          exact ⟨v, by simpa [lookupAssoc, h0] using hv⟩

theorem docMatches_true_iff (sel : Selector) (d : Doc) :
    docMatches sel d = true ↔ ∀ kc ∈ sel, condHolds kc.2 (lookupField d kc.1) = true := by
  simp [docMatches, List.all_eq_true]

theorem condHolds_of_docMatches (sel : Selector) (d : Doc) (k : String) (c : Cond)
    (hm : docMatches sel d = true) (hl : lookupAssoc sel k = some c) :
    condHolds c (lookupField d k) = true :=
  (docMatches_true_iff sel d).mp hm (k, c) (mem_of_lookupAssoc_eq_some sel k c hl)

theorem mem_insertQueryMask_of_mem_acc (mask : Selector) (acc : Selector)
    (kc : String × Cond) (h : kc ∈ acc) : kc ∈ insertQueryMask mask acc := by
  induction mask generalizing acc with
  | nil => exact h
  | cons m rest ih =>
      show kc ∈ List.foldl insertMaskStep (insertMaskStep acc m) rest
      apply ih
      unfold insertMaskStep
      split
      · exact h
      · exact List.mem_append_left _ h

theorem mem_keys_insertQueryMask_of_mem (mask : Selector) (acc : Selector) (k : String)
    (h : k ∈ selKeys acc) : k ∈ selKeys (insertQueryMask mask acc) := by
  induction mask generalizing acc with
  | nil => exact h
  | cons m rest ih =>
      show k ∈ selKeys (List.foldl insertMaskStep (insertMaskStep acc m) rest)
      apply ih
      unfold insertMaskStep
      split
      · exact h
      · simpa [selKeys] using Or.inl (by simpa [selKeys] using h)


theorem insertQueryMask_cons (m : String × Cond) (rest : Selector) (acc : Selector) :
    insertQueryMask (m :: rest) acc = insertQueryMask rest (insertMaskStep acc m) := rfl

theorem insertMaskStep_of_mem (acc : Selector) (m : String × Cond)
    (h : m.1 ∈ selKeys acc) : insertMaskStep acc m = acc := by
  unfold insertMaskStep
  rw [if_pos h]

theorem insertMaskStep_of_not_mem (acc : Selector) (m : String × Cond)
    (h : m.1 ∉ selKeys acc) : insertMaskStep acc m = acc ++ [m] := by
  unfold insertMaskStep
  rw [if_neg h]

theorem selKeys_append (s t : Selector) : selKeys (s ++ t) = selKeys s ++ selKeys t := by
  simp [selKeys]

theorem lookupAssoc_insertQueryMask_mem (mask : Selector) (acc : Selector) (k : String)
    (h : k ∈ selKeys acc) :
    lookupAssoc (insertQueryMask mask acc) k = lookupAssoc acc k := by
  induction mask generalizing acc with
  | nil => rfl
  | cons m rest ih =>
      rw [insertQueryMask_cons]
      by_cases hin : m.1 ∈ selKeys acc
      · rw [insertMaskStep_of_mem acc m hin]
        exact ih acc h
      · rw [insertMaskStep_of_not_mem acc m hin]
        have h' : k ∈ selKeys (acc ++ [m]) := by
          rw [selKeys_append]
          exact List.mem_append_left _ h
        rw [ih (acc ++ [m]) h']
        rcases lookupAssoc_isSome_of_mem_keys acc k h with ⟨v, hv⟩
        rw [lookupAssoc_append_some acc [m] k v hv, hv]

theorem lookupAssoc_insertQueryMask_not_mem (mask : Selector) (acc : Selector) (k : String)
    (h : k ∉ selKeys acc) :
    lookupAssoc (insertQueryMask mask acc) k = lookupAssoc mask k := by
  induction mask generalizing acc with
  | nil =>
      show lookupAssoc acc k = none
      exact lookupAssoc_eq_none_of_not_mem acc k h
  | cons m rest ih =>
      obtain ⟨k1, c1⟩ := m
      rw [insertQueryMask_cons]
      by_cases hin : (k1, c1).1 ∈ selKeys acc
      · have hne : ¬ k1 = k := fun hc => h (hc ▸ hin)
        rw [insertMaskStep_of_mem acc (k1, c1) hin, ih acc h]
        simp [lookupAssoc, hne]
      · rw [insertMaskStep_of_not_mem acc (k1, c1) hin]
        by_cases hk : k1 = k
        · have hmem : k ∈ selKeys (acc ++ [(k1, c1)]) := by
            rw [selKeys_append]
            apply List.mem_append_right
            simp [selKeys, hk]
          rw [lookupAssoc_insertQueryMask_mem rest _ k hmem]
          rw [lookupAssoc_append_none acc _ k (lookupAssoc_eq_none_of_not_mem acc k h)]
          simp [lookupAssoc, hk]
        · have hnot : k ∉ selKeys (acc ++ [(k1, c1)]) := by
            rw [selKeys_append]
            intro hc
            rcases List.mem_append.mp hc with hc | hc
            · exact h hc
            · simp only [selKeys, List.map_cons, List.map_nil, List.mem_singleton] at hc
              exact hk hc.symm
          rw [ih _ hnot]
          simp [lookupAssoc, hk]

theorem mem_insertQueryMask_of_nodup (mask : Selector) (acc : Selector)
    (hnodup : (selKeys mask).Nodup) (hdisj : ∀ k ∈ selKeys mask, k ∉ selKeys acc)
    (kc : String × Cond) (hm : kc ∈ mask) : kc ∈ insertQueryMask mask acc := by
  induction mask generalizing acc with
  | nil => simp at hm
  | cons m rest ih =>
      obtain ⟨k1, c1⟩ := m
      have hk1 : (k1, c1).1 ∈ selKeys ((k1, c1) :: rest) := by simp [selKeys]
      have hk1acc : (k1, c1).1 ∉ selKeys acc := hdisj k1 hk1
      rw [insertQueryMask_cons, insertMaskStep_of_not_mem acc (k1, c1) hk1acc]
      have hcons : selKeys ((k1, c1) :: rest) = k1 :: selKeys rest := by simp [selKeys]
      rw [hcons] at hnodup
      have hhead : k1 ∉ selKeys rest := (List.nodup_cons.mp hnodup).1
      have hrest : (selKeys rest).Nodup := (List.nodup_cons.mp hnodup).2
      rcases List.mem_cons.mp hm with h | h
      · subst h
        exact mem_insertQueryMask_of_mem_acc rest _ _ (by simp)
      · apply ih _ hrest _ h
        intro k hk
        rw [selKeys_append]
        intro hc
        rcases List.mem_append.mp hc with hc | hc
        · exact hdisj k (by rw [hcons]; exact List.mem_cons_of_mem _ hk) hc
        · simp only [selKeys, List.map_cons, List.map_nil, List.mem_singleton] at hc
          exact hhead (hc ▸ hk)

theorem updateAll_not_matching (sel : Selector) (f : Doc → Doc) (coll : Collection) :
    List.Forall₂ (fun d d' => docMatches sel d = false → d' = d) coll (updateAll sel f coll) := by
  induction coll with
  | nil => exact List.Forall₂.nil
  | cons d ds ih =>
      refine List.Forall₂.cons (fun h => ?_) ih
      simp [h]

theorem updateFirst_not_matching (sel : Selector) (f : Doc → Doc) (coll : Collection) :
    List.Forall₂ (fun d d' => docMatches sel d = false → d' = d) coll (updateFirst sel f coll) := by
  induction coll with
  | nil => exact List.Forall₂.nil
  | cons d ds ih =>
      by_cases hm : docMatches sel d
      · rw [show updateFirst sel f (d :: ds) = f d :: ds by simp [updateFirst, hm]]
        refine List.Forall₂.cons (fun h => ?_) ?_
        · rw [hm] at h
          cases h
        · exact List.forall₂_same.mpr (fun x _ => fun _ => rfl)
      · rw [show updateFirst sel f (d :: ds) = d :: updateFirst sel f ds by
            simp [updateFirst, hm]]
        exact List.Forall₂.cons (fun _ => rfl) ih

theorem findOneDoc_updateFirst (sel : Selector) (f : Doc → Doc) (coll : Collection)
    (hpres : ∀ d, docMatches sel d = true → docMatches sel (f d) = true) :
    findOneDoc sel (updateFirst sel f coll) = (findOneDoc sel coll).map f := by
  induction coll with
  | nil => rfl
  | cons d ds ih =>
      by_cases hm : docMatches sel d
      · rw [show updateFirst sel f (d :: ds) = f d :: ds by simp [updateFirst, hm]]
        simp [findOneDoc, findDocs, List.filter_cons, hm, hpres d hm]
      · rw [show updateFirst sel f (d :: ds) = d :: updateFirst sel f ds by
            simp [updateFirst, hm]]
        simpa [findOneDoc, findDocs, List.filter_cons, hm] using ih

theorem splitChar_of_not_mem (c : Char) (xs : List Char) (h : c ∉ xs) :
    splitChar c xs = [xs] := by
  induction xs with
  | nil => rfl
  | cons x rest ih =>
      simp only [List.mem_cons] at h
      push_neg at h
      have hx : ¬ x = c := fun hc => h.1 (Eq.symm hc)
      rw [show splitChar c (x :: rest) =
            match splitChar c rest with
            | [] => [[x]]
            | hd :: t => (x :: hd) :: t by simp [splitChar, hx]]
      rw [ih h.2]

theorem splitChar_append (c : Char) (xs ys : List Char) (h : c ∉ xs) :
    splitChar c (xs ++ c :: ys) = xs :: splitChar c ys := by
  induction xs with
  | nil => simp [splitChar]
  | cons x rest ih =>
      simp only [List.mem_cons] at h
      push_neg at h
      have hx : ¬ x = c := fun hc => h.1 (Eq.symm hc)
      rw [show (x :: rest) ++ c :: ys = x :: (rest ++ c :: ys) by rfl]
      rw [show splitChar c (x :: (rest ++ c :: ys)) =
            match splitChar c (rest ++ c :: ys) with
            | [] => [[x]]
            | hd :: t => (x :: hd) :: t by simp [splitChar, hx]]
      rw [ih h.2]

theorem splitKey_no_dot (s : String) (h : '.' ∉ s.data) : splitKey s = [s] := by
  rw [splitKey, splitChar_of_not_mem '.' s.data h]
  rfl

theorem splitKey_two (a b : String) (ha : '.' ∉ a.data) (hb : '.' ∉ b.data) :
    splitKey (a ++ "." ++ b) = [a, b] := by
  have hdata : (a ++ "." ++ b).data = a.data ++ '.' :: b.data := by
    rw [String.data_append, String.data_append, List.append_assoc]
    rfl
  rw [splitKey, hdata, splitChar_append '.' a.data b.data ha,
    splitChar_of_not_mem '.' b.data hb]
  rfl

theorem configConcat_cons (kv : String × PVal) (d : List (String × PVal)) :
    configConcat (kv :: d) = configFragment kv ++ configConcat d := rfl

theorem foldl_configFragment (d : List (String × PVal)) (s : String) :
    d.foldl (fun acc kv => acc ++ configFragment kv) s = s ++ configConcat d := by
  induction d generalizing s with
  | nil => exact (String.append_empty s).symm
  | cons kv rest ih =>
      rw [List.foldl_cons, ih, configConcat_cons, String.append_assoc]

theorem makeConfigCommand_some (d : List (String × PVal)) :
    makeConfigCommand (some d) = some (configConcat d) := by
  rw [show makeConfigCommand (some d) =
        some (d.foldl (fun acc kv => acc ++ configFragment kv) "") from rfl]
  rw [foldl_configFragment, String.empty_append]

theorem configConcat_append (d1 d2 : List (String × PVal)) :
    configConcat (d1 ++ d2) = configConcat d1 ++ configConcat d2 := by
  induction d1 with
  | nil => exact (String.empty_append _).symm
  | cons kv rest ih =>
      rw [List.cons_append, configConcat_cons, configConcat_cons, ih,
        String.append_assoc]

theorem configConcat_fragment_of_mem (d : List (String × PVal)) (kv : String × PVal)
    (h : kv ∈ d) :
    ∃ pre post, configConcat d = pre ++ configFragment kv ++ post := by
  rcases List.append_of_mem h with ⟨s, t, rfl⟩
  refine ⟨configConcat s, configConcat t, ?_⟩
  rw [configConcat_append, configConcat_cons, String.append_assoc]

theorem addToConfigs_isSome (cfg : Configs) (k : String) (v : PVal) :
    ∃ d, addToConfigs cfg k v = some d := by
  cases cfg with
  | none => exact ⟨_, rfl⟩
  | some d => exact ⟨_, rfl⟩

theorem writeInputFileListContent_data (paths : List String) :
    (writeInputFileListContent paths).data = (pyJoin "\n" paths).data ++ ['\n'] := by
  rw [writeInputFileListContent, String.data_append]

theorem splitChar_pyJoin_newline (paths : List String) (hne : paths ≠ [])
    (h : ∀ p ∈ paths, '\n' ∉ p.data) :
    splitChar '\n' ((pyJoin "\n" paths).data ++ ['\n']) =
      paths.map String.data ++ [[]] := by
  induction paths with
  | nil => cases hne rfl
  | cons x rest ih =>
      cases rest with
      | nil =>
          have hx : '\n' ∉ x.data := h x (by simp)
          rw [show pyJoin "\n" [x] = x from rfl]
          rw [show x.data ++ ['\n'] = x.data ++ '\n' :: [] from rfl]
          rw [splitChar_append '\n' x.data [] hx]
          rfl
      | cons y rest2 =>
          have hx : '\n' ∉ x.data := h x (by simp)
          have hdata : (pyJoin "\n" (x :: y :: rest2)).data ++ ['\n'] =
              x.data ++ '\n' :: ((pyJoin "\n" (y :: rest2)).data ++ ['\n']) := by
            rw [show pyJoin "\n" (x :: y :: rest2) =
                  x ++ "\n" ++ pyJoin "\n" (y :: rest2) from rfl]
            rw [String.data_append, String.data_append, List.append_assoc,
              List.append_assoc]
            rfl
          rw [hdata, splitChar_append '\n' x.data _ hx]
          rw [ih (by simp) (fun p hp => h p (List.mem_cons_of_mem x hp))]
          rfl

theorem docSetPath_two (a b : String) (v : Value) (d sub : Doc)
    (h : lookupField d a = some (Value.vDoc sub)) :
    docSetPath [a, b] v d = setField d a (Value.vDoc (setField sub b v)) := by
  simp [docSetPath, h]

/-- C2: `ImageLog.find(S)` queries with the merged selector that keeps
every key of the caller's selector `S` at `S`'s condition (caller
precedence), gives every mask key not present in `S` the mask's condition,
and hence every returned record satisfies each mask condition whose key
`S` does not override. -/
theorem c2_find_merges_mask_with_caller_precedence (mask S : Selector) (coll : Collection) :
    (∀ k, k ∈ selKeys S →
      lookupAssoc (insertQueryMask mask S) k = lookupAssoc S k)
    ∧ (∀ k, k ∉ selKeys S →
      lookupAssoc (insertQueryMask mask S) k = lookupAssoc mask k)
    ∧ (∀ d, d ∈ imageLogFind mask S none coll →
        ∀ k c, lookupAssoc mask k = some c → k ∉ selKeys S →
          condHolds c (lookupField d k) = true) := by
  refine ⟨fun k hk => lookupAssoc_insertQueryMask_mem mask S k hk,
          fun k hk => lookupAssoc_insertQueryMask_not_mem mask S k hk,
          fun d hd k c hc hk => ?_⟩
  have hmem : d ∈ List.filter (fun d => docMatches (insertQueryMask mask S) d) coll := hd
  have hmatch : docMatches (insertQueryMask mask S) d = true := List.of_mem_filter hmem
  have hmerged : lookupAssoc (insertQueryMask mask S) k = some c := by
    rw [lookupAssoc_insertQueryMask_not_mem mask S k hk]
    exact hc
  exact condHolds_of_docMatches _ d k c hmatch hmerged

/-- C2 witness: concrete store with mask on `INSTRUME`; the caller's key
keeps its own condition and the returned record satisfies the mask. -/
theorem c2_find_merges_mask_with_caller_precedence_witness :
    lookupAssoc
        (insertQueryMask [("INSTRUME", Cond.ceq (Value.vStr "MegaPrime"))]
          [("FILTER", Cond.ceq (Value.vStr "g"))]) "FILTER"
      = lookupAssoc [("FILTER", Cond.ceq (Value.vStr "g"))] "FILTER"
    ∧ condHolds (Cond.ceq (Value.vStr "MegaPrime"))
        (lookupField
          [("_id", Value.vStr "i1"), ("FILTER", Value.vStr "g"),
           ("INSTRUME", Value.vStr "MegaPrime")] "INSTRUME") = true := by
  obtain ⟨h1, h2, h3⟩ := c2_find_merges_mask_with_caller_precedence
    [("INSTRUME", Cond.ceq (Value.vStr "MegaPrime"))]
    [("FILTER", Cond.ceq (Value.vStr "g"))]
    [[("_id", Value.vStr "i1"), ("FILTER", Value.vStr "g"),
      ("INSTRUME", Value.vStr "MegaPrime")]]
  refine ⟨h1 "FILTER" (by decide), ?_⟩
  exact h3 _ (by decide) "INSTRUME" (Cond.ceq (Value.vStr "MegaPrime"))
    (by decide) (by decide)

/-- C1 counterexample: `ImageLog.set` updates by `{"_id": imageKey}` alone,
never applying the query mask, so a record that fails the mask is mutated:
with mask `INSTRUME = "MegaPrime"`, the record `img` (which lacks
`INSTRUME`) still has its `flag` field rewritten. -/
theorem c1_set_mutates_mask_failing_record :
    docMatches [("INSTRUME", Cond.ceq (Value.vStr "MegaPrime"))]
        [("_id", Value.vStr "img"), ("flag", Value.vStr "old")] = false
    ∧ imageLogSet [[("_id", Value.vStr "img"), ("flag", Value.vStr "old")]]
        "img" "flag" (Value.vStr "new") none
      = [[("_id", Value.vStr "img"), ("flag", Value.vStr "new")]]
    ∧ imageLogSet [[("_id", Value.vStr "img"), ("flag", Value.vStr "old")]]
        "img" "flag" (Value.vStr "new") none
      ≠ [[("_id", Value.vStr "img"), ("flag", Value.vStr "old")]] := by
  refine ⟨by decide, by decide, by decide⟩

/-- C1 (amended): the bulk writes `rename_field` and `delete_field` are
mask-scoped: when the caller's selector does not mention the masked fields
and the renamed field is not itself a masked key, a record failing the
mask is never mutated. (`set` is key-addressed and exempt, per the
counterexample; renaming a masked key replaces the mask condition by
`$exists` and is also exempt.) -/
theorem c1_amended_bulk_writes_mask_scoped (mask : Selector) (sel : Option Selector)
    (oldKey newKey dataKey : String) (coll : Collection)
    (hnodup : (selKeys mask).Nodup)
    (hdisj : ∀ k ∈ selKeys mask, k ∉ selKeys (sel.getD []))
    (hold : oldKey ∉ selKeys mask) :
    List.Forall₂ (fun d d' => docMatches mask d = false → d' = d) coll
        (imageLogRenameField mask sel oldKey newKey true coll)
    ∧ List.Forall₂ (fun d d' => docMatches mask d = false → d' = d) coll
        (imageLogDeleteField mask sel dataKey true coll) := by
  have key : ∀ (sel2 : Selector), (∀ kc : String × Cond, kc ∈ mask → kc ∈ sel2) →
      ∀ d : Doc, docMatches sel2 d = true → docMatches mask d = true := by
    intro sel2 hsub d hm
    rw [docMatches_true_iff]
    intro kc hkc
    exact (docMatches_true_iff sel2 d).mp hm kc (hsub kc hkc)
  constructor
  · rw [show imageLogRenameField mask sel oldKey newKey true coll =
        updateAll (setSelField (insertQueryMask mask (sel.getD [])) oldKey Cond.cexists)
          (modRename oldKey newKey) coll from rfl]
    have hsub : ∀ kc : String × Cond, kc ∈ mask →
        kc ∈ setSelField (insertQueryMask mask (sel.getD [])) oldKey Cond.cexists := by
      intro kc hkc
      have h1 : kc ∈ insertQueryMask mask (sel.getD []) :=
        mem_insertQueryMask_of_nodup mask _ hnodup hdisj kc hkc
      have h2 : kc.1 ≠ oldKey := by
        intro hc
        exact hold (hc ▸ (List.mem_map.mpr ⟨kc, hkc, rfl⟩))
      exact mem_setAssoc_of_mem_ne _ oldKey kc.1 Cond.cexists kc.2 h1 h2
    refine (updateAll_not_matching _ _ coll).imp ?_
    intro a b hR hmask
    apply hR
    cases hmatch : docMatches
        (setSelField (insertQueryMask mask (sel.getD [])) oldKey Cond.cexists) a with
    | false => rfl
    | true =>
        have := key _ hsub a hmatch
        rw [hmask] at this
        cases this
  · rw [show imageLogDeleteField mask sel dataKey true coll =
        updateAll (insertQueryMask mask (sel.getD [])) (modUnset dataKey) coll from rfl]
    have hsub : ∀ kc : String × Cond, kc ∈ mask →
        kc ∈ insertQueryMask mask (sel.getD []) :=
      fun kc hkc => mem_insertQueryMask_of_nodup mask _ hnodup hdisj kc hkc
    refine (updateAll_not_matching _ _ coll).imp ?_
    intro a b hR hmask
    apply hR
    cases hmatch : docMatches (insertQueryMask mask (sel.getD [])) a with
    | false => rfl
    | true =>
        have := key _ hsub a hmatch
        rw [hmask] at this
        cases this

/-- C1 witness: with mask `INSTRUME = "MegaPrime"` and no caller selector,
`rename_field` and `delete_field` leave the mask-failing record unchanged. -/
theorem c1_amended_bulk_writes_mask_scoped_witness :
    List.Forall₂ (fun d d' => docMatches
          [("INSTRUME", Cond.ceq (Value.vStr "MegaPrime"))] d = false → d' = d)
        [[("_id", Value.vStr "img"), ("flag", Value.vStr "old")]]
        (imageLogRenameField [("INSTRUME", Cond.ceq (Value.vStr "MegaPrime"))] none
          "flag" "state" true
          [[("_id", Value.vStr "img"), ("flag", Value.vStr "old")]])
    ∧ List.Forall₂ (fun d d' => docMatches
          [("INSTRUME", Cond.ceq (Value.vStr "MegaPrime"))] d = false → d' = d)
        [[("_id", Value.vStr "img"), ("flag", Value.vStr "old")]]
        (imageLogDeleteField [("INSTRUME", Cond.ceq (Value.vStr "MegaPrime"))] none
          "flag" true
          [[("_id", Value.vStr "img"), ("flag", Value.vStr "old")]]) :=
  c1_amended_bulk_writes_mask_scoped
    [("INSTRUME", Cond.ceq (Value.vStr "MegaPrime"))] none "flag" "state" "flag"
    [[("_id", Value.vStr "img"), ("flag", Value.vStr "old")]]
    (by decide) (by decide) (by decide)

theorem docSetPath_two_shape (a b : String) (v : Value) (d : Doc) :
    ∃ w, docSetPath [a, b] v d = setField d a w := by
  rw [show docSetPath [a, b] v d =
        (match lookupField d a with
         | some (Value.vDoc sub) => setField d a (Value.vDoc (docSetPath [b] v sub))
         | _ => setField d a (Value.vDoc (docSetPath [b] v []))) from rfl]
  cases hl : lookupField d a with
  | none => exact ⟨_, rfl⟩
  | some w =>
      cases w with
      | vStr s => exact ⟨_, rfl⟩
      | vInt n => exact ⟨_, rfl⟩
      | vDoc sub => exact ⟨_, rfl⟩

theorem docMatches_idSelector (key : String) (d : Doc) :
    docMatches (idSelector key) d =
      condHolds (Cond.ceq (Value.vStr key)) (lookupField d "_id") := by
  simp [docMatches, idSelector]

/-- C8: the dotted write/read round-trip. Setting field `b` under
extension `a` updates the addressed record in place: reading the nested
path `a.b` on the updated record returns the written value, and every
sibling field under the sub-document `a` reads as before (the sub-document
is merged into, not replaced). -/
theorem c8_dotted_write_read_roundtrip (coll : Collection) (key a b : String) (v : Value)
    (r sub : Doc)
    (hfind : findOneDoc (idSelector key) coll = some r)
    (hsub : lookupField r a = some (Value.vDoc sub))
    (ha : '.' ∉ a.data) (hb : '.' ∉ b.data) (hid : a ≠ "_id") :
    ∃ r', findOneDoc (idSelector key) (imageLogSet coll key b v (some a)) = some r'
      ∧ reach r' (a ++ "." ++ b) = some v
      ∧ ∀ s, s ≠ b → '.' ∉ s.data →
          reach r' (a ++ "." ++ s) = reach r (a ++ "." ++ s) := by
  have hsplit : splitKey (a ++ "." ++ b) = [a, b] := splitKey_two a b ha hb
  have hmod : ∀ d : Doc, modSet (a ++ "." ++ b) v d = docSetPath [a, b] v d := by
    intro d
    rw [modSet, hsplit]
  have hpres : ∀ d : Doc, docMatches (idSelector key) d = true →
      docMatches (idSelector key) (modSet (a ++ "." ++ b) v d) = true := by
    intro d hd
    rw [hmod d]
    obtain ⟨w, hw⟩ := docSetPath_two_shape a b v d
    rw [hw, docMatches_idSelector]
    rw [docMatches_idSelector] at hd
    rw [show lookupField (setField d a w) "_id" = lookupField d "_id" from
      lookupAssoc_setAssoc_ne d a "_id" w (fun hc => hid (Eq.symm hc))]
    exact hd
  have hset : imageLogSet coll key b v (some a) =
      updateFirst (idSelector key) (modSet (a ++ "." ++ b) v) coll := rfl
  have hfound : findOneDoc (idSelector key) (imageLogSet coll key b v (some a)) =
      some (modSet (a ++ "." ++ b) v r) := by
    rw [hset, findOneDoc_updateFirst (idSelector key) _ coll hpres, hfind]
    rfl
  have hr' : modSet (a ++ "." ++ b) v r = setField r a (Value.vDoc (setField sub b v)) := by
    rw [hmod r]
    exact docSetPath_two a b v r sub hsub
  refine ⟨setField r a (Value.vDoc (setField sub b v)), by rw [hfound, hr'], ?_, ?_⟩
  · rw [reach, hsplit]
    rw [show reachParts (setField r a (Value.vDoc (setField sub b v))) [a, b] =
          (match lookupField (setField r a (Value.vDoc (setField sub b v))) a with
           | some (Value.vDoc d2) => reachParts d2 [b]
           | _ => none) from rfl]
    rw [show lookupField (setField r a (Value.vDoc (setField sub b v))) a =
          some (Value.vDoc (setField sub b v)) from lookupAssoc_setAssoc_self r a _]
    show lookupField (setField sub b v) b = some v
    exact lookupAssoc_setAssoc_self sub b v
  · intro s hs hsd
    have hsplit2 : splitKey (a ++ "." ++ s) = [a, s] := splitKey_two a s ha hsd
    rw [reach, reach, hsplit2]
    rw [show reachParts (setField r a (Value.vDoc (setField sub b v))) [a, s] =
          (match lookupField (setField r a (Value.vDoc (setField sub b v))) a with
           | some (Value.vDoc d2) => reachParts d2 [s]
           | _ => none) from rfl]
    rw [show reachParts r [a, s] =
          (match lookupField r a with
           | some (Value.vDoc d2) => reachParts d2 [s]
           | _ => none) from rfl]
    rw [show lookupField (setField r a (Value.vDoc (setField sub b v))) a =
          some (Value.vDoc (setField sub b v)) from lookupAssoc_setAssoc_self r a _]
    rw [hsub]
    show lookupField (setField sub b v) s = lookupField sub s
    exact lookupAssoc_setAssoc_ne sub b s v hs

/-- C8 witness: writing `b` under extension `a` on a concrete record and
reading `a.b` back returns the value; the sibling `x` under `a` is kept. -/
theorem c8_dotted_write_read_roundtrip_witness :
    ∃ r', findOneDoc (idSelector "i1")
        (imageLogSet
          [[("_id", Value.vStr "i1"),
            ("a", Value.vDoc [("x", Value.vInt 1)])]]
          "i1" "b" (Value.vInt 7) (some "a")) = some r'
      ∧ reach r' ("a" ++ "." ++ "b") = some (Value.vInt 7)
      ∧ ∀ s, s ≠ "b" → '.' ∉ s.data →
          reach r' ("a" ++ "." ++ s) =
            reach [("_id", Value.vStr "i1"),
              ("a", Value.vDoc [("x", Value.vInt 1)])] ("a" ++ "." ++ s) :=
  c8_dotted_write_read_roundtrip
    [[("_id", Value.vStr "i1"), ("a", Value.vDoc [("x", Value.vInt 1)])]]
    "i1" "a" "b" (Value.vInt 7)
    [("_id", Value.vStr "i1"), ("a", Value.vDoc [("x", Value.vInt 1)])]
    [("x", Value.vInt 1)]
    (by decide) (by decide) (by decide) (by decide) (by decide)

theorem not_mem_keys_filter {β : Type} (d : List (String × β)) (k : String) :
    k ∉ (d.filter (fun kv => kv.1 ≠ k)).map Prod.fst := by
  intro hc
  rcases List.mem_map.mp hc with ⟨e, he, hk⟩
  have := List.of_mem_filter he
  simp only [decide_eq_true_eq] at this
  exact this hk

/-- C3 counterexample: on an uninitialized config set (`configs = None`),
`set_null_config(k, None)` is not a no-op even though `k` is missing: it
initializes the dict to `{}`, observable through `make_config_command`
turning from `None` into the empty string. -/
theorem c3_set_null_not_noop_when_uninitialized :
    setNullConfig none "K" none = some []
    ∧ setNullConfig none "K" none ≠ none
    ∧ makeConfigCommand (setNullConfig none "K" none) = some ""
    ∧ makeConfigCommand none = none := by
  refine ⟨by decide, by decide, by decide, by decide⟩

/-- C3 (amended): `set_null_config(k, sentinel)` with a non-absent sentinel
stores the sentinel under `k` (after `set(k, v)` then
`set_null(k, EMPTY_STRING)` the rendered command contains the fragment
`-k ""`); with the absent marker it removes `k` entirely, a no-op when `k`
is missing from an initialized dict — on an uninitialized config set it
instead initializes the dict to empty. -/
theorem c3_amended_set_null (cfg : Configs) (d : List (String × PVal))
    (k : String) (nv v : PVal) :
    (∃ d1, setNullConfig cfg k (some nv) = some d1 ∧ lookupAssoc d1 k = some nv)
    ∧ (∃ d2 pre post,
        setNullConfig (addToConfigs cfg k v) k (some emptyStringSentinel) = some d2
        ∧ makeConfigCommand (some d2) =
            some (pre ++ configFragment (k, emptyStringSentinel) ++ post))
    ∧ (k ∉ d.map Prod.fst → setNullConfig (some d) k none = some d)
    ∧ (∃ d3, setNullConfig (some d) k none = some d3 ∧ k ∉ d3.map Prod.fst)
    ∧ setNullConfig none k none = some [] := by
  refine ⟨?_, ?_, ?_, ?_, rfl⟩
  · cases cfg with
    | none => exact ⟨[(k, nv)], rfl, by simp [lookupAssoc]⟩
    | some d0 => exact ⟨setAssoc d0 k nv, rfl, lookupAssoc_setAssoc_self d0 k nv⟩
  · obtain ⟨d0, h0⟩ := addToConfigs_isSome cfg k v
    rw [h0]
    obtain ⟨pre, post, hpp⟩ := configConcat_fragment_of_mem _ (k, emptyStringSentinel)
      (mem_setAssoc_self d0 k emptyStringSentinel)
    exact ⟨setAssoc d0 k emptyStringSentinel, pre, post, rfl,
      by rw [makeConfigCommand_some, hpp]⟩
  · intro hmem
    rw [show setNullConfig (some d) k none =
          (if k ∈ d.map Prod.fst then some (d.filter (fun kv => kv.1 ≠ k)) else some d)
        from rfl]
    rw [if_neg hmem]
  · by_cases hmem : k ∈ d.map Prod.fst
    · refine ⟨d.filter (fun kv => kv.1 ≠ k), ?_, not_mem_keys_filter d k⟩
      rw [show setNullConfig (some d) k none =
            (if k ∈ d.map Prod.fst then some (d.filter (fun kv => kv.1 ≠ k)) else some d)
          from rfl]
      rw [if_pos hmem]
    · refine ⟨d, ?_, hmem⟩
      rw [show setNullConfig (some d) k none =
            (if k ∈ d.map Prod.fst then some (d.filter (fun kv => kv.1 ≠ k)) else some d)
          from rfl]
      rw [if_neg hmem]

/-- C3 witness: concrete run of the amended facts, with the no-op case
discharged on a dict missing the key. -/
theorem c3_amended_set_null_witness :
    (∃ d1, setNullConfig (some [("A", PVal.pstr "1")]) "K" (some (PVal.pstr "x")) = some d1
      ∧ lookupAssoc d1 "K" = some (PVal.pstr "x"))
    ∧ (∃ d2 pre post,
        setNullConfig (addToConfigs (some [("A", PVal.pstr "1")]) "K" (PVal.pstr "v"))
            "K" (some emptyStringSentinel) = some d2
        ∧ makeConfigCommand (some d2) =
            some (pre ++ configFragment ("K", emptyStringSentinel) ++ post))
    ∧ ("K" ∉ ([("A", PVal.pstr "1")] : List (String × PVal)).map Prod.fst →
        setNullConfig (some [("A", PVal.pstr "1")]) "K" none = some [("A", PVal.pstr "1")])
    ∧ (∃ d3, setNullConfig (some [("A", PVal.pstr "1")]) "K" none = some d3
        ∧ "K" ∉ d3.map Prod.fst)
    ∧ setNullConfig none "K" none = some [] := by
  have h := c3_amended_set_null (some [("A", PVal.pstr "1")]) [("A", PVal.pstr "1")]
    "K" (PVal.pstr "x") (PVal.pstr "v")
  exact h

/-- C4 counterexample: an initialized-but-empty config set — reached from a
fresh state by `add_to_configs("K", v)` then `set_null_config("K", None)` —
renders as the empty string, not as the `None` "no configuration"
sentinel. -/
theorem c4_empty_initialized_set_renders_empty_string :
    setNullConfig (addToConfigs none "K" (PVal.pstr "v")) "K" none = some []
    ∧ makeConfigCommand (setNullConfig (addToConfigs none "K" (PVal.pstr "v")) "K" none)
        = some ""
    ∧ makeConfigCommand (setNullConfig (addToConfigs none "K" (PVal.pstr "v")) "K" none)
        ≠ none := by
  refine ⟨by decide, by decide, by decide⟩

/-- C4 (amended): `make_config_command` returns the `None` sentinel exactly
when the config set is uninitialized; on an initialized dict it returns the
concatenation of one fragment `" -KEY VALUE"` per entry in dictionary
order (each entry contributing its fragment exactly once, every value
stringified totally), so an initialized empty dict renders as the empty
string; as a pure function of the state, repeated calls without mutation
agree. -/
theorem c4_amended_render (cfg : List (String × PVal)) :
    makeConfigCommand none = none
    ∧ makeConfigCommand (some cfg) = some (configConcat cfg)
    ∧ (∀ kv ∈ cfg, ∃ pre post, configConcat cfg = pre ++ configFragment kv ++ post) := by
  refine ⟨rfl, makeConfigCommand_some cfg, ?_⟩
  intro kv hkv
  exact configConcat_fragment_of_mem cfg kv hkv

/-- C4 witness: a two-entry dict renders as the concatenation of its two
fragments, and each entry's fragment occurs inside the rendered string. -/
theorem c4_amended_render_witness :
    makeConfigCommand (some [("A", PVal.pstr "1"), ("B", PVal.pint 2)])
      = some (configConcat [("A", PVal.pstr "1"), ("B", PVal.pint 2)])
    ∧ ∃ pre post, configConcat [("A", PVal.pstr "1"), ("B", PVal.pint 2)]
        = pre ++ configFragment ("B", PVal.pint 2) ++ post := by
  obtain ⟨h1, h2, h3⟩ := c4_amended_render [("A", PVal.pstr "1"), ("B", PVal.pint 2)]
  exact ⟨h2, h3 ("B", PVal.pint 2) (by decide)⟩

theorem scampMakeCommand_references_list (configs : Configs) (defaultsPath : String)
    (checkList : Option (List String)) (workDir listPath : String) :
    ∃ tail, scampMakeCommand configs defaultsPath checkList workDir listPath =
      ("scamp @" ++ listPath) ++ tail := by
  cases checkList with
  | none =>
      obtain ⟨d2, h2⟩ := addToConfigs_isSome
        (addToConfigs configs "c" (PVal.pstr defaultsPath)) "CHECKPLOT_TYPE"
        (PVal.pstr "NONE")
      refine ⟨" " ++ configConcat d2, ?_⟩
      rw [show scampMakeCommand configs defaultsPath none workDir listPath =
            (match makeConfigCommand (addToConfigs
                (addToConfigs configs "c" (PVal.pstr defaultsPath)) "CHECKPLOT_TYPE"
                (PVal.pstr "NONE")) with
             | some configCmd => pyJoin " " ["scamp @" ++ listPath, configCmd]
             | none => "scamp @" ++ listPath) from rfl]
      rw [h2, makeConfigCommand_some]
      show ("scamp @" ++ listPath) ++ " " ++ configConcat d2 = _
      rw [String.append_assoc]
  | some cl =>
      obtain ⟨d2, h2⟩ := addToConfigs_isSome
        (addToConfigs (addToConfigs configs "c" (PVal.pstr defaultsPath))
          "CHECKPLOT_TYPE" (PVal.pstr (pyJoin "," cl)))
        "CHECKPLOT_NAME" (PVal.pstr (pyJoin "," (scampSetCheckPlots workDir cl)))
      refine ⟨" " ++ configConcat d2, ?_⟩
      rw [show scampMakeCommand configs defaultsPath (some cl) workDir listPath =
            (match makeConfigCommand (addToConfigs
                (addToConfigs (addToConfigs configs "c" (PVal.pstr defaultsPath))
                  "CHECKPLOT_TYPE" (PVal.pstr (pyJoin "," cl)))
                "CHECKPLOT_NAME"
                (PVal.pstr (pyJoin "," (scampSetCheckPlots workDir cl)))) with
             | some configCmd => pyJoin " " ["scamp @" ++ listPath, configCmd]
             | none => "scamp @" ++ listPath) from rfl]
      rw [h2, makeConfigCommand_some]
      show ("scamp @" ++ listPath) ++ " " ++ configConcat d2 = _
      rw [String.append_assoc]

/-- C5: `write_input_file_list` writes, at `workDir/<name>.txt`, exactly
the input paths joined by newlines with one trailing newline (so the file
splits on newlines into one line per path plus one final empty line),
removing any pre-existing file at that location first so the new content
fully replaces it while every other path keeps its content; Scamp's built
command references the list as `@<path>`. -/
theorem c5_input_file_list (fs : FileSys) (workDir name : String) (paths : List String)
    (configs : Configs) (defaultsPath : String) (checkList : Option (List String))
    (scampWorkDir : String)
    (hne : paths ≠ []) (hnl : ∀ p ∈ paths, '\n' ∉ p.data) :
    writeInputFileListContent paths = pyJoin "\n" paths ++ "\n"
    ∧ splitChar '\n' (writeInputFileListContent paths).data
        = paths.map String.data ++ [[]]
    ∧ lookupAssoc (writeInputFileList fs workDir name paths).1
        (writeInputFileList fs workDir name paths).2
        = some (writeInputFileListContent paths)
    ∧ (∀ q, q ≠ (writeInputFileList fs workDir name paths).2 →
        lookupAssoc (writeInputFileList fs workDir name paths).1 q = lookupAssoc fs q)
    ∧ ∃ tail, scampMakeCommand configs defaultsPath checkList scampWorkDir
          (writeInputFileList fs workDir name paths).2
        = ("scamp @" ++ (writeInputFileList fs workDir name paths).2) ++ tail := by
  have hsnd : (writeInputFileList fs workDir name paths).2 = inputListPath workDir name :=
    rfl
  have hfst : (writeInputFileList fs workDir name paths).1 =
      fsWrite (if (lookupAssoc fs (inputListPath workDir name)).isSome
               then fsRemove fs (inputListPath workDir name) else fs)
        (inputListPath workDir name) (writeInputFileListContent paths) := rfl
  refine ⟨rfl, ?_, ?_, ?_, ?_⟩
  · rw [writeInputFileListContent_data]
    exact splitChar_pyJoin_newline paths hne hnl
  · rw [hsnd, hfst, fsWrite]
    exact lookupAssoc_setAssoc_self _ _ _
  · intro q hq
    rw [hsnd] at hq
    rw [hfst, fsWrite]
    rw [lookupAssoc_setAssoc_ne _ _ q _ hq]
    by_cases hex : (lookupAssoc fs (inputListPath workDir name)).isSome
    · rw [if_pos hex, fsRemove]
      exact lookupAssoc_filter_ne fs (inputListPath workDir name) q hq
    · rw [if_neg hex]
  · rw [hsnd]
    exact scampMakeCommand_references_list configs defaultsPath checkList scampWorkDir _

/-- C5 witness: two concrete catalog paths; the file content, its
line-splitting, the file-system update and the `@`-reference evaluated. -/
theorem c5_input_file_list_witness :
    writeInputFileListContent ["/d/a.fits", "/d/b.fits"]
        = pyJoin "\n" ["/d/a.fits", "/d/b.fits"] ++ "\n"
    ∧ splitChar '\n' (writeInputFileListContent ["/d/a.fits", "/d/b.fits"]).data
        = ["/d/a.fits", "/d/b.fits"].map String.data ++ [[]]
    ∧ lookupAssoc
        (writeInputFileList [("scamp/inputlist.txt", "stale")] "scamp" "inputlist"
          ["/d/a.fits", "/d/b.fits"]).1
        (writeInputFileList [("scamp/inputlist.txt", "stale")] "scamp" "inputlist"
          ["/d/a.fits", "/d/b.fits"]).2
        = some (writeInputFileListContent ["/d/a.fits", "/d/b.fits"])
    ∧ (∀ q, q ≠ (writeInputFileList [("scamp/inputlist.txt", "stale")] "scamp"
          "inputlist" ["/d/a.fits", "/d/b.fits"]).2 →
        lookupAssoc (writeInputFileList [("scamp/inputlist.txt", "stale")] "scamp"
          "inputlist" ["/d/a.fits", "/d/b.fits"]).1 q
          = lookupAssoc [("scamp/inputlist.txt", "stale")] q)
    ∧ ∃ tail, scampMakeCommand none "scamp/defaults.txt" none "scamp"
          (writeInputFileList [("scamp/inputlist.txt", "stale")] "scamp" "inputlist"
            ["/d/a.fits", "/d/b.fits"]).2
        = ("scamp @" ++ (writeInputFileList [("scamp/inputlist.txt", "stale")] "scamp"
            "inputlist" ["/d/a.fits", "/d/b.fits"]).2) ++ tail :=
  c5_input_file_list [("scamp/inputlist.txt", "stale")] "scamp" "inputlist"
    ["/d/a.fits", "/d/b.fits"] none "scamp/defaults.txt" none "scamp"
    (by decide) (by decide)

/-- C6 counterexample: the code's ssh wrapping puts no space after the
semicolon, so the produced command differs from the claimed template
`ssh <principal> 'cd <remote_root>; <command>'` at a concrete input. -/
theorem c6_wrap_differs_from_spec_template :
    wrapVirtualHost (some ("user@host", "/remote")) "ls"
        = "ssh user@host 'cd /remote;ls'"
    ∧ specRemoteWrap "user@host" "/remote" "ls"
        = "ssh user@host 'cd /remote; ls'"
    ∧ wrapVirtualHost (some ("user@host", "/remote")) "ls"
        ≠ specRemoteWrap "user@host" "/remote" "ls" := by
  refine ⟨by decide, by decide, by decide⟩

/-- C6 (amended): for every command and `(principal, remote_root)` pair,
`run` produces exactly `ssh <principal> 'cd <remote_root>;<command>'` —
with no space after the semicolon — as a pure string transform applied
once; with no virtual host the command is executed unmodified. -/
theorem c6_amended_remote_wrapping (p r c : String) :
    wrapVirtualHost (some (p, r)) c
        = "ssh" ++ " " ++ p ++ " " ++ "'cd " ++ r ++ ";" ++ c ++ "'"
    ∧ wrapVirtualHost none c = c := by
  refine ⟨?_, rfl⟩
  show ("ssh" ++ " ") ++ ((p ++ " ") ++ ("'cd " ++ r ++ ";" ++ c ++ "'")) = _
  simp only [String.append_assoc]

theorem seSetCheckImages_none_of_bad_type (workDir inputPath t : String)
    (cl : List String) (hmem : t ∈ cl) (htab : seCheckExt t = none) :
    seSetCheckImages workDir inputPath cl = none := by
  induction cl with
  | nil => simp at hmem
  | cons hd tl ih =>
      rcases List.mem_cons.mp hmem with h | h
      · subst h
        simp [seSetCheckImages, htab]
      · cases hhd : seCheckExt hd with
        | none => simp [seSetCheckImages, hhd]
        | some sfx => simp [seSetCheckImages, hhd, ih h]

theorem psfexSetCheckImages_none_of_bad_type (checkDir pfx t : String)
    (cl : List String) (hmem : t ∈ cl) (htab : psfexCheckSuffix t = none) :
    psfexSetCheckImages checkDir pfx cl = none := by
  induction cl with
  | nil => simp at hmem
  | cons hd tl ih =>
      rcases List.mem_cons.mp hmem with h | h
      · subst h
        simp [psfexSetCheckImages, htab]
      · cases hhd : psfexCheckSuffix hd with
        | none => simp [psfexSetCheckImages, hhd]
        | some sfx => simp [psfexSetCheckImages, hhd, ih h]

theorem seSetCheckImages_some_of_good_types (workDir inputPath : String)
    (cl : List String) (hgood : ∀ ty ∈ cl, (seCheckExt ty).isSome) :
    ∃ ps, seSetCheckImages workDir inputPath cl = some ps
      ∧ List.Forall₂ (fun ty p => ∀ sfx, seCheckExt ty = some sfx →
          p = pathJoin workDir (seBaseName inputPath ++ "_" ++ sfx ++ ".fits")) cl ps := by
  induction cl with
  | nil => exact ⟨[], rfl, List.Forall₂.nil⟩
  | cons hd tl ih =>
      obtain ⟨sfx, hsfx⟩ := Option.isSome_iff_exists.mp (hgood hd (by simp))
      obtain ⟨ps, hps, hfa⟩ := ih (fun ty hty => hgood ty (List.mem_cons_of_mem hd hty))
      refine ⟨pathJoin workDir (seBaseName inputPath ++ "_" ++ sfx ++ ".fits") :: ps,
        ?_, ?_⟩
      · simp [seSetCheckImages, hsfx, hps]
      · refine List.Forall₂.cons (fun sfx' hsfx' => ?_) hfa
        rw [hsfx] at hsfx'
        rw [Option.some.inj hsfx']

theorem psfexSetCheckImages_some_of_good_types (checkDir pfx : String)
    (cl : List String) (hgood : ∀ ty ∈ cl, (psfexCheckSuffix ty).isSome) :
    ∃ ps, psfexSetCheckImages checkDir pfx cl = some ps
      ∧ List.Forall₂ (fun ty p => ∀ sfx, psfexCheckSuffix ty = some sfx →
          p = pathJoin checkDir (pfx ++ "_" ++ sfx ++ ".fits")) cl ps := by
  induction cl with
  | nil => exact ⟨[], rfl, List.Forall₂.nil⟩
  | cons hd tl ih =>
      obtain ⟨sfx, hsfx⟩ := Option.isSome_iff_exists.mp (hgood hd (by simp))
      obtain ⟨ps, hps, hfa⟩ := ih (fun ty hty => hgood ty (List.mem_cons_of_mem hd hty))
      refine ⟨pathJoin checkDir (pfx ++ "_" ++ sfx ++ ".fits") :: ps, ?_, ?_⟩
      · simp [psfexSetCheckImages, hsfx, hps]
      · refine List.Forall₂.cons (fun sfx' hsfx' => ?_) hfa
        rw [hsfx] at hsfx'
        rw [Option.some.inj hsfx']

/-- C7: check-artifact paths come from fixed type-to-suffix tables —
source extraction maps `SEGMENTATION` to `seg` and `BACKGROUND` to `bkg`,
giving `<workDir>/<baseName>_<suffix>.fits`; PSF modelling maps `CHI` to
`chi` and `RESIDUALS` to `resi`; registration plot names are the
lower-cased types — and configuring any check type absent from the table
fails the whole configuration as a key lookup failure. -/
theorem c7_check_type_tables (workDir checkDir inputPath pfx t : String)
    (cl : List String) :
    (seCheckExt "SEGMENTATION" = some "seg"
      ∧ seCheckExt "BACKGROUND" = some "bkg"
      ∧ psfexCheckSuffix "CHI" = some "chi"
      ∧ psfexCheckSuffix "RESIDUALS" = some "resi"
      ∧ scampSetCheckPlots workDir cl = cl.map (fun ty => pathJoin workDir ty.toLower))
    ∧ (t ∈ cl → seCheckExt t = none → seSetCheckImages workDir inputPath cl = none)
    ∧ (t ∈ cl → psfexCheckSuffix t = none → psfexSetCheckImages checkDir pfx cl = none)
    ∧ ((∀ ty ∈ cl, (seCheckExt ty).isSome) →
        ∃ ps, seSetCheckImages workDir inputPath cl = some ps
          ∧ List.Forall₂ (fun ty p => ∀ sfx, seCheckExt ty = some sfx →
              p = pathJoin workDir (seBaseName inputPath ++ "_" ++ sfx ++ ".fits")) cl ps)
    ∧ ((∀ ty ∈ cl, (psfexCheckSuffix ty).isSome) →
        ∃ ps, psfexSetCheckImages checkDir pfx cl = some ps
          ∧ List.Forall₂ (fun ty p => ∀ sfx, psfexCheckSuffix ty = some sfx →
              p = pathJoin checkDir (pfx ++ "_" ++ sfx ++ ".fits")) cl ps) :=
  ⟨⟨rfl, rfl, rfl, rfl, rfl⟩,
   fun hmem htab => seSetCheckImages_none_of_bad_type workDir inputPath t cl hmem htab,
   fun hmem htab => psfexSetCheckImages_none_of_bad_type checkDir pfx t cl hmem htab,
   fun hgood => seSetCheckImages_some_of_good_types workDir inputPath cl hgood,
   fun hgood => psfexSetCheckImages_some_of_good_types checkDir pfx cl hgood⟩

/-- C7 witness: an unknown check type makes configuration fail, and a good
list produces the table-derived paths. -/
theorem c7_check_type_tables_witness :
    seSetCheckImages "work" "/d/frame.fits" ["SEGMENTATION", "GRADIENT"] = none
    ∧ ∃ ps, seSetCheckImages "work" "/d/frame.fits" ["SEGMENTATION", "BACKGROUND"]
          = some ps
        ∧ List.Forall₂ (fun ty p => ∀ sfx, seCheckExt ty = some sfx →
            p = pathJoin "work" (seBaseName "/d/frame.fits" ++ "_" ++ sfx ++ ".fits"))
          ["SEGMENTATION", "BACKGROUND"] ps := by
  constructor
  · exact (c7_check_type_tables "work" "cdir" "/d/frame.fits" "px" "GRADIENT"
      ["SEGMENTATION", "GRADIENT"]).2.1 (by decide) (by decide)
  · exact (c7_check_type_tables "work" "cdir" "/d/frame.fits" "px" "GRADIENT"
      ["SEGMENTATION", "BACKGROUND"]).2.2.2.1 (by decide)

/-- C9: the concrete two-image batch scenario. Each unit's catalog path is
`join(workDir, imageKey + "_se_cat" + ".fits")`, and persisting the two
units' results — in either completion order — leaves record `img01` with
catalog `se/img01_se_cat.fits` and record `img02` with
`se/img02_se_cat.fits`. -/
theorem c9_batch_catalog_fields :
    workSECatalogPath "se" "img01" "se_cat" = "se/img01_se_cat.fits"
    ∧ workSECatalogPath "se" "img02" "se_cat" = "se/img02_se_cat.fits"
    ∧ findOneDoc (idSelector "img01")
        (batchPersistCatalogs "catalog"
          (batchSEResults "se" "se_cat" ["img01", "img02"])
          [[("_id", Value.vStr "img01"), ("path", Value.vStr "/data/a.fits")],
           [("_id", Value.vStr "img02"), ("path", Value.vStr "/data/b.fits")]])
      = some [("_id", Value.vStr "img01"), ("path", Value.vStr "/data/a.fits"),
              ("catalog", Value.vStr "se/img01_se_cat.fits")]
    ∧ findOneDoc (idSelector "img02")
        (batchPersistCatalogs "catalog"
          (batchSEResults "se" "se_cat" ["img01", "img02"])
          [[("_id", Value.vStr "img01"), ("path", Value.vStr "/data/a.fits")],
           [("_id", Value.vStr "img02"), ("path", Value.vStr "/data/b.fits")]])
      = some [("_id", Value.vStr "img02"), ("path", Value.vStr "/data/b.fits"),
              ("catalog", Value.vStr "se/img02_se_cat.fits")]
    ∧ findOneDoc (idSelector "img01")
        (batchPersistCatalogs "catalog"
          (batchSEResults "se" "se_cat" ["img01", "img02"]).reverse
          [[("_id", Value.vStr "img01"), ("path", Value.vStr "/data/a.fits")],
           [("_id", Value.vStr "img02"), ("path", Value.vStr "/data/b.fits")]])
      = some [("_id", Value.vStr "img01"), ("path", Value.vStr "/data/a.fits"),
              ("catalog", Value.vStr "se/img01_se_cat.fits")]
    ∧ findOneDoc (idSelector "img02")
        (batchPersistCatalogs "catalog"
          (batchSEResults "se" "se_cat" ["img01", "img02"]).reverse
          [[("_id", Value.vStr "img01"), ("path", Value.vStr "/data/a.fits")],
           [("_id", Value.vStr "img02"), ("path", Value.vStr "/data/b.fits")]])
      = some [("_id", Value.vStr "img02"), ("path", Value.vStr "/data/b.fits"),
              ("catalog", Value.vStr "se/img02_se_cat.fits")] := by
  refine ⟨by decide, by decide, by decide, by decide, by decide, by decide⟩

theorem pyListIndex_eq_none_of_not_mem (t : String) (cl : List String)
    (h : t ∉ cl) : pyListIndex t cl = none := by
  induction cl with
  | nil => rfl
  | cons hd tl ih =>
      simp only [List.mem_cons] at h
      push_neg at h
      have hne : ¬ hd = t := fun hc => h.1 (Eq.symm hc)
      simp [pyListIndex, hne, ih h.2]

/-- C10: `check_path(t)` for a check type `t` absent from the configured
list raises the `list.index` lookup error and never returns the documented
`None` (the `i >= 0` guard is always satisfied); for a present type it
returns the configured path at `t`'s first position. -/
theorem c10_check_path_never_none (cl cps : List String) (t : String) :
    (t ∉ cl → astromaticCheckPath cl cps t = Except.error "ValueError")
    ∧ astromaticCheckPath cl cps t ≠ Except.ok none
    ∧ (∀ i, pyListIndex t cl = some i → ∀ h : i < cps.length,
        astromaticCheckPath cl cps t = Except.ok (some (cps.get ⟨i, h⟩))) := by
  refine ⟨?_, ?_, ?_⟩
  · intro hmem
    rw [show astromaticCheckPath cl cps t =
          (match pyListIndex t cl with
           | none => Except.error "ValueError"
           | some i =>
               if (i : Int) ≥ 0 then
                 match cps[i]? with
                 | some p => Except.ok (some p)
                 | none => Except.error "IndexError"
               else Except.ok none) from rfl]
    rw [pyListIndex_eq_none_of_not_mem t cl hmem]
  · rw [show astromaticCheckPath cl cps t =
          (match pyListIndex t cl with
           | none => Except.error "ValueError"
           | some i =>
               if (i : Int) ≥ 0 then
                 match cps[i]? with
                 | some p => Except.ok (some p)
                 | none => Except.error "IndexError"
               else Except.ok none) from rfl]
    cases hidx : pyListIndex t cl with
    | none => simp
    | some i =>
        simp only
        rw [if_pos (by exact_mod_cast Int.natCast_nonneg i)]
        cases hget : cps[i]? with
        | none => simp
        | some p => simp
  · intro i hidx h
    rw [show astromaticCheckPath cl cps t =
          (match pyListIndex t cl with
           | none => Except.error "ValueError"
           | some i =>
               if (i : Int) ≥ 0 then
                 match cps[i]? with
                 | some p => Except.ok (some p)
                 | none => Except.error "IndexError"
               else Except.ok none) from rfl]
    rw [hidx]
    simp only
    rw [if_pos (by exact_mod_cast Int.natCast_nonneg i)]
    rw [List.getElem?_eq_getElem h]
    rfl

/-- C10 witness: an absent type raises; a present type returns its path. -/
theorem c10_check_path_never_none_witness :
    astromaticCheckPath ["SEGMENTATION"] ["work/f_seg.fits"] "CHI"
        = Except.error "ValueError"
    ∧ astromaticCheckPath ["SEGMENTATION"] ["work/f_seg.fits"] "SEGMENTATION"
        = Except.ok (some "work/f_seg.fits") := by
  constructor
  · exact (c10_check_path_never_none ["SEGMENTATION"] ["work/f_seg.fits"] "CHI").1
      (by decide)
  · exact (c10_check_path_never_none ["SEGMENTATION"] ["work/f_seg.fits"]
      "SEGMENTATION").2.2 0 (by decide) (by decide)
